import Mathlib

set_option maxRecDepth 100000

/-!
Verification of the Sudoku-Solver repository core (src/main.ts, src/q.ts /
solver.ts).  The constraint language below is exactly what `solveSudoku`
emits to the Z3 backend: per-cell bounds `1 <= x` and `x <= 9`, clue
equalities, `Distinct` over each of the 27 groups, and a single final
`Or` of cell-disequalities used as a blocking constraint for the
uniqueness probe.  The Z3 backend itself is external (a Python library
reached over a bridge), so it is modelled as an opaque oracle with
`check : List Constr -> Z3Result` and `model : List Constr -> Nat ->
Option Int` (`none` models a value whose textual form fails to parse in
`Number.parseInt`); soundness of the oracle is hypothesised where a
claim needs it, matching the capability contract the code assumes of Z3.
-/

namespace Sudoku

/-- Result of one `solver.check()` call, as the code reads it back via
`toString()`: "sat", "unsat", or "unknown". -/
inductive Z3Result where
  | sat
  | unsat
  | unknown
deriving DecidableEq

/-- The constraint language produced by `solveSudoku`: `cell >= v`,
`cell <= v`, `cell == v`, `Distinct(cells)`, and `Or(cell_i != v_i, ...)`
(the blocking constraint).  Cells are identified by their row-major index
`row * 9 + col`, matching the variable `x_row_col` in the code. -/
inductive Constr where
  | ge (cell : Nat) (v : Int)
  | le (cell : Nat) (v : Int)
  | eq (cell : Nat) (v : Int)
  | distinct (cells : List Nat)
  | orNe (lits : List (Nat × Int))
deriving DecidableEq

/-- Semantics of a single constraint under an assignment of integers to
cell indices. -/
def Constr.holds (a : Nat → Int) : Constr → Bool
  | .ge cell v => decide (v ≤ a cell)
  | .le cell v => decide (a cell ≤ v)
  | .eq cell v => decide (a cell = v)
  | .distinct cells => decide (cells.map a).Nodup
  | .orNe lits => lits.any fun p => decide (a p.1 ≠ p.2)

/-- An assignment satisfies a constraint system iff it satisfies every
conjunct (`solver.add` is conjunctive). -/
def satisfies (a : Nat → Int) (cs : List Constr) : Bool :=
  cs.all (Constr.holds a)

/-- The backend decision procedure: `check` answers sat/unsat/unknown for
a constraint list, and `model` gives the extracted integer value of each
cell variable under the found model (`none` when the textual value does
not parse as an integer). -/
structure Oracle where
  check : List Constr → Z3Result
  model : List Constr → Nat → Option Int

/-- The total assignment induced by the model of an oracle (defaulting
unparseable cells to 0, which can never satisfy a domain constraint). -/
def Oracle.assign (O : Oracle) (cs : List Constr) : Nat → Int :=
  fun i => (O.model cs i).getD 0

/-- Backend contract, sat direction: when `check` answers sat, the
extracted model satisfies the constraint system. -/
def SatSound (O : Oracle) : Prop :=
  ∀ cs, O.check cs = Z3Result.sat → satisfies (O.assign cs) cs = true

/-- Backend contract, unsat direction: when `check` answers unsat, no
assignment satisfies the constraint system. -/
def UnsatSound (O : Oracle) : Prop :=
  ∀ cs, O.check cs = Z3Result.unsat → ∀ a, satisfies a cs ≠ true

def GRID_SIZE : Nat := 9

def BOARD_SIZE : Nat := 81

/-- Row-major cell index, `row * GRID_SIZE + col` as in the code. -/
def cellIdx (row col : Nat) : Nat := row * GRID_SIZE + col

/-- The per-cell constraints of the encoding loop: for each cell the
domain bounds `>= 1` and `<= 9`, plus the clue equality when the board
value at that position is non-zero (`board[row * GRID_SIZE + col]`). -/
def cellConstraints (board : List Int) : List Constr :=
  (List.range GRID_SIZE).flatMap fun row =>
    (List.range GRID_SIZE).flatMap fun col =>
      [Constr.ge (cellIdx row col) 1, Constr.le (cellIdx row col) 9] ++
        (if board.getD (cellIdx row col) 0 ≠ 0 then
          [Constr.eq (cellIdx row col) (board.getD (cellIdx row col) 0)]
        else [])

/-- The cell indices of row `row`. -/
def rowGroup (row : Nat) : List Nat :=
  (List.range GRID_SIZE).map fun col => cellIdx row col

/-- The cell indices of column `col`. -/
def colGroup (col : Nat) : List Nat :=
  (List.range GRID_SIZE).map fun row => cellIdx row col

/-- The cell indices of the 3x3 box at `(boxRow, boxCol)`, in the order
the code pushes them (row outer, col inner). -/
def boxGroup (boxRow boxCol : Nat) : List Nat :=
  (List.range 3).flatMap fun row =>
    (List.range 3).map fun col =>
      cellIdx (boxRow * 3 + row) (boxCol * 3 + col)

/-- The nine `Distinct` row constraints. -/
def rowConstraints : List Constr :=
  (List.range GRID_SIZE).map fun row => Constr.distinct (rowGroup row)

/-- The nine `Distinct` column constraints. -/
def colConstraints : List Constr :=
  (List.range GRID_SIZE).map fun col => Constr.distinct (colGroup col)

/-- The nine `Distinct` box constraints. -/
def boxConstraints : List Constr :=
  (List.range 3).flatMap fun boxRow =>
    (List.range 3).map fun boxCol =>
      Constr.distinct (boxGroup boxRow boxCol)

/-- The 27 groups (9 rows, 9 columns, 9 boxes) of cell indices. -/
def groupCells : List (List Nat) :=
  ((List.range GRID_SIZE).map rowGroup ++ (List.range GRID_SIZE).map colGroup) ++
    (List.range 3).flatMap fun boxRow =>
      (List.range 3).map fun boxCol => boxGroup boxRow boxCol

/-- The full constraint system built by the encoding part of
`solveSudoku`: cell constraints, then row, column and subgrid `Distinct`
constraints, in the order the code adds them. -/
def encode (board : List Int) : List Constr :=
  cellConstraints board ++ rowConstraints ++ colConstraints ++ boxConstraints

/-- The extraction loop: read each cell of `cells` from the model,
failing (the code throws a generic `Error`) as soon as one value does not
parse. -/
def extractList (m : Nat → Option Int) : List Nat → Option (List Int)
  | [] => some []
  | i :: rest =>
    match m i with
    | none => none
    | some v =>
      match extractList m rest with
      | none => none
      | some vs => some (v :: vs)

/-- Read the 81 cell variables from the model in row-major order. -/
def extract (m : Nat → Option Int) : Option (List Int) :=
  extractList m (List.range BOARD_SIZE)

/-- The blocking constraint: `Or` over all 81 cells of
`Not(cell == solution[i])`. -/
def blockConstraint (solution : List Int) : Constr :=
  Constr.orNe ((List.range BOARD_SIZE).map fun i => (i, solution.getD i 0))

/-- The error taxonomy of `solveSudoku` in main.ts: the dedicated
`SudokuUnsolvableError` thrown when the first check is not "sat", and the
generic `Error` thrown when a model value fails to parse. -/
inductive SolveError where
  | unsolvable
  | internal (msg : String)
deriving DecidableEq

/-- The value returned by a successful `solveSudoku` call. -/
structure SolveResult where
  solution : List Int
  solutionCount : Nat
deriving DecidableEq

/-- Function `solveSudoku` from src/main.ts: encode the board, check; when the
result is not "sat" throw `SudokuUnsolvableError`; otherwise extract the
81 model values in row-major order, add the blocking constraint to the
same solver, check again, and report `solutionCount = 2` iff the second
check answers "sat", else `1`. -/
def solveSudoku (O : Oracle) (board : List Int) : Except SolveError SolveResult :=
  let cs := encode board
  if O.check cs ≠ Z3Result.sat then
    Except.error SolveError.unsolvable
  else
    match extract (O.model cs) with
    | none => Except.error (SolveError.internal "Failed to parse solver value")
    | some solution =>
      let cs2 := cs ++ [blockConstraint solution]
      let solutionCount := if O.check cs2 = Z3Result.sat then 2 else 1
      Except.ok { solution := solution, solutionCount := solutionCount }

/-- Function `solveSudoku` from src/solver.ts (the process-isolated worker): the
same algorithm, but both failure paths throw plain `Error`s whose
messages are all that crosses the process boundary. -/
def solveSudokuQ (O : Oracle) (board : List Int) : Except String SolveResult :=
  let cs := encode board
  if O.check cs ≠ Z3Result.sat then
    Except.error "Sudoku has no solution."
  else
    match extract (O.model cs) with
    | none => Except.error "Failed to parse solver value"
    | some solution =>
      let cs2 := cs ++ [blockConstraint solution]
      let solutionCount := if O.check cs2 = Z3Result.sat then 2 else 1
      Except.ok { solution := solution, solutionCount := solutionCount }

/-- The JSON line solver.ts writes to stdout:
`{success: true, solution, solutionCount}` or `{success: false, error}`. -/
inductive SolverOutput where
  | success (solution : List Int) (solutionCount : Nat)
  | failure (error : String)
deriving DecidableEq

/-- Function `main` of solver.ts: run the solver and report success, catching any
thrown error (unsolvable or internal alike) as `{success: false}`. -/
def solverMain (O : Oracle) (board : List Int) : SolverOutput :=
  match solveSudokuQ O board with
  | Except.ok r => SolverOutput.success r.solution r.solutionCount
  | Except.error e => SolverOutput.failure e

/-- The error `solveSudokuInProcess` throws for a `{success: false}`
subprocess output: always `SudokuUnsolvableError`. -/
inductive IPError where
  | sudokuUnsolvable (msg : String)
deriving DecidableEq

/-- The output-handling tail of `solveSudokuInProcess` (main.ts,
process-isolated variant): a successful subprocess output becomes the
result; any `{success: false}` output is rethrown as
`SudokuUnsolvableError`. -/
def solveSudokuInProcessOutput : SolverOutput → Except IPError SolveResult
  | SolverOutput.success sol cnt => Except.ok { solution := sol, solutionCount := cnt }
  | SolverOutput.failure msg => Except.error (IPError.sudokuUnsolvable msg)

/-- The HTTP status `handleSolveRequest` (process-isolated variant)
responds with: 200 on success, 422 for `SudokuUnsolvableError`. -/
def ipResponseStatus : Except IPError SolveResult → Nat
  | Except.ok _ => 200
  | Except.error (IPError.sudokuUnsolvable _) => 422

/-- One entry of the JSON `board` array as the boundary sees it: either a
JS number that is an integer, or anything else (`typeof value !==
"number" || !Number.isInteger(value)`). -/
inductive JsEntry where
  | int (n : Int)
  | nonInt
deriving DecidableEq

/-- The per-entry validation of `handleSolveRequest`: an entry passes iff
it is an integer in the range 0-9. -/
def checkEntry : JsEntry → Option Int
  | JsEntry.int n => if 0 ≤ n ∧ n ≤ 9 then some n else none
  | JsEntry.nonInt => none

/-- The validation loop of `handleSolveRequest`: push each validated
entry, returning the 400 error (`none`) on the first bad entry. -/
def parseEntries : List JsEntry → Option (List Int)
  | [] => some []
  | e :: rest =>
    match checkEntry e with
    | none => none
    | some v =>
      match parseEntries rest with
      | none => none
      | some vs => some (v :: vs)

/-- Function `handleSolveRequest` from src/main.ts, after JSON parsing: reject a
board of the wrong length or with an out-of-range / non-integer entry
with status 400; otherwise run `solveSudoku`, answering 200 on success,
422 for `SudokuUnsolvableError` and 500 for any other error. -/
def handleSolveRequest (O : Oracle) (entries : List JsEntry) : Nat × Option SolveResult :=
  if entries.length ≠ BOARD_SIZE then (400, none)
  else
    match parseEntries entries with
    | none => (400, none)
    | some board =>
      match solveSudoku O board with
      | Except.ok r => (200, some r)
      | Except.error SolveError.unsolvable => (422, none)
      | Except.error (SolveError.internal _) => (500, none)

/-!  Concrete oracles used to witness the theorems below.  `probeOracle σ`
is built around a designated assignment `σ`: it answers sat exactly when
`σ` satisfies the constraints, answers unsat when the constraint list
syntactically contains an `orNe` clause all of whose disequalities are
contradicted by `eq` constraints in the same list (which makes the list
genuinely unsatisfiable), and answers unknown otherwise.  Both soundness
directions of the backend contract hold for it. -/

/-- A constraint list contains an `Or` of disequalities each of which is
directly contradicted by an equality constraint in the same list; such a
list is unsatisfiable. -/
def blockedPattern (cs : List Constr) : Bool :=
  cs.any fun c =>
    match c with
    | Constr.orNe lits => lits.all fun p => decide (Constr.eq p.1 p.2 ∈ cs)
    | _ => false

/-- A backend oracle that is sound in both directions (see
`probeOracle_satSound`, `probeOracle_unsatSound`). -/
def probeOracle (σ : Nat → Int) : Oracle where
  check := fun cs =>
    if blockedPattern cs then Z3Result.unsat
    else if satisfies σ cs then Z3Result.sat
    else Z3Result.unknown
  model := fun _ i => some (σ i)

/-- A backend that always gives up. -/
def unknownOracle : Oracle where
  check := fun _ => Z3Result.unknown
  model := fun _ _ => none

/-- A backend that claims sat but produces a model whose values all fail
to parse (models the `Number.parseInt` failure branch). -/
def noneModelOracle : Oracle where
  check := fun _ => Z3Result.sat
  model := fun _ _ => none

/-- A reference solved grid: `sigmaStar (9 * r + c) = (3 r + ⌊r / 3⌋ + c) % 9 + 1`,
a classic shifted pattern satisfying all Sudoku rules. -/
def sigmaStar (i : Nat) : Int :=
  Int.ofNat ((i / 9 * 3 + i / 27 + i % 9) % 9 + 1)

/-- The fully-solved board listing `sigmaStar` in row-major order. -/
def fullBoard : List Int := (List.range 81).map sigmaStar

/-- The all-blank board. -/
def zeroBoard : List Int := List.replicate 81 (0 : Int)

/-- A board agreeing with `sigmaStar` on its single clue (cell 0 = 1). -/
def oneClueBoard : List Int := (1 : Int) :: List.replicate 80 (0 : Int)

/-- The board of Scenario D: first row starts `[5, 5, ...]`, rest blank. -/
def board5 : List Int := (5 : Int) :: (5 : Int) :: List.replicate 79 (0 : Int)

/-- Malformed request: 80 entries. -/
def entries80 : List JsEntry := List.replicate 80 (JsEntry.int 0)

/-- Malformed request: 81 entries, one of them the out-of-range value 10. -/
def entries10 : List JsEntry :=
  List.replicate 80 (JsEntry.int 0) ++ [JsEntry.int 10]

deriving instance DecidableEq for Except

/-- The nine legal cell values. -/
def nineList : List Int := [1, 2, 3, 4, 5, 6, 7, 8, 9]

/-- Spec-side statement of P1, following the words of the spec: each of the 27
groups of the solution contains each value 1 through 9 exactly once. -/
def validSolutionSpec (sol : List Int) : Prop :=
  ∀ g ∈ groupCells, ∀ v : Int, 1 ≤ v → v ≤ 9 →
    ((g.map fun i => sol.getD i 0).count v) = 1

/-! Basic lemmas about the embedded operations. -/

theorem satisfies_mem {a : Nat → Int} {cs : List Constr} {c : Constr}
    (h : satisfies a cs = true) (hc : c ∈ cs) : Constr.holds a c = true := by
  unfold satisfies at h
  rw [List.all_eq_true] at h
  exact h c hc

theorem satisfies_append {a : Nat → Int} {l₁ l₂ : List Constr} :
    satisfies a (l₁ ++ l₂) = (satisfies a l₁ && satisfies a l₂) := by
  unfold satisfies
  exact List.all_append

theorem satisfies_single {a : Nat → Int} {c : Constr} :
    satisfies a [c] = Constr.holds a c := by
  unfold satisfies
  simp [List.all_cons]

theorem range_getD {n k : Nat} (h : k < n) : (List.range n).getD k 0 = k := by
  rw [List.getD_eq_getElem?_getD, List.getElem?_eq_getElem (by simpa using h)]
  simp

theorem extractList_spec {m : Nat → Option Int} :
    ∀ {l : List Nat} {res : List Int}, extractList m l = some res →
      res.length = l.length ∧ ∀ k, k < l.length → m (l.getD k 0) = some (res.getD k 0) := by
  intro l
  induction l with
  | nil =>
    intro res h
    simp only [extractList] at h
    cases h
    exact ⟨rfl, fun k hk => absurd hk (by simp)⟩
  | cons i rest ih =>
    intro res h
    simp only [extractList] at h
    cases hmi : m i with
    | none => rw [hmi] at h; cases h
    | some v =>
      rw [hmi] at h
      cases hrest : extractList m rest with
      | none => rw [hrest] at h; cases h
      | some vs =>
        rw [hrest] at h
        cases h
        obtain ⟨hlen, hvals⟩ := ih hrest
        refine ⟨by simp [hlen], fun k hk => ?_⟩
        cases k with
        | zero => simpa using hmi
        | succ k' => exact hvals k' (by simpa using hk)

theorem extractList_all_some {m : Nat → Option Int} {f : Nat → Int} :
    ∀ {l : List Nat}, (∀ i ∈ l, m i = some (f i)) →
      extractList m l = some (l.map f) := by
  intro l
  induction l with
  | nil => intro _; rfl
  | cons i rest ih =>
    intro h
    simp only [extractList]
    rw [h i (by simp), ih fun j hj => h j (by simp [hj])]
    simp

theorem extract_spec {m : Nat → Option Int} {sol : List Int}
    (h : extract m = some sol) :
    sol.length = 81 ∧ ∀ i, i < 81 → m i = some (sol.getD i 0) := by
  obtain ⟨hlen, hvals⟩ := extractList_spec h
  refine ⟨by simpa [BOARD_SIZE] using hlen, fun i hi => ?_⟩
  have := hvals i (by simpa [BOARD_SIZE] using hi)
  rwa [range_getD (by simpa [BOARD_SIZE] using hi)] at this

theorem map_range_getD {b : List Int} (hb : b.length = 81) :
    ((List.range 81).map fun i => b.getD i 0) = b := by
  apply List.ext_getElem (by simp [hb])
  intro i h1 h2
  simp only [List.getElem_map, List.getElem_range]
  rw [List.getD_eq_getElem?_getD, List.getElem?_eq_getElem h2]
  simp

/-! Membership of the individual constraints in the encoded system. -/

theorem cellIdx_lt {row col : Nat} (hr : row < 9) (hc : col < 9) :
    cellIdx row col < 81 := by
  unfold cellIdx GRID_SIZE
  omega

theorem cellIdx_split {i : Nat} (hi : i < 81) :
    i / 9 < 9 ∧ i % 9 < 9 ∧ cellIdx (i / 9) (i % 9) = i := by
  unfold cellIdx GRID_SIZE
  omega

theorem mem_cellConstraints_of {b : List Int} {i : Nat} {c : Constr}
    (hi : i < 81)
    (hc : c ∈ [Constr.ge i 1, Constr.le i 9] ++
      (if b.getD i 0 ≠ 0 then [Constr.eq i (b.getD i 0)] else [])) :
    c ∈ cellConstraints b := by
  obtain ⟨hr, hcl, hidx⟩ := cellIdx_split hi
  unfold cellConstraints
  rw [List.mem_flatMap]
  refine ⟨i / 9, List.mem_range.2 (by simpa [GRID_SIZE] using hr), ?_⟩
  rw [List.mem_flatMap]
  refine ⟨i % 9, List.mem_range.2 (by simpa [GRID_SIZE] using hcl), ?_⟩
  rw [hidx]
  exact hc

theorem ge_mem_encode (b : List Int) {i : Nat} (hi : i < 81) :
    Constr.ge i 1 ∈ encode b := by
  unfold encode
  simp only [List.mem_append]
  exact Or.inl (Or.inl (Or.inl (mem_cellConstraints_of hi (by simp))))

theorem le_mem_encode (b : List Int) {i : Nat} (hi : i < 81) :
    Constr.le i 9 ∈ encode b := by
  unfold encode
  simp only [List.mem_append]
  exact Or.inl (Or.inl (Or.inl (mem_cellConstraints_of hi (by simp))))

theorem eq_mem_encode {b : List Int} {i : Nat} (hi : i < 81)
    (hnz : b.getD i 0 ≠ 0) : Constr.eq i (b.getD i 0) ∈ encode b := by
  unfold encode
  simp only [List.mem_append]
  refine Or.inl (Or.inl (Or.inl (mem_cellConstraints_of hi ?_)))
  rw [if_pos hnz]
  simp

theorem distinct_mem_encode (b : List Int) {g : List Nat}
    (hg : g ∈ groupCells) : Constr.distinct g ∈ encode b := by
  unfold groupCells at hg
  unfold encode rowConstraints colConstraints boxConstraints
  simp only [List.mem_append] at hg ⊢
  rcases hg with (hg | hg) | hg
  · rw [List.mem_map] at hg
    obtain ⟨r, hr, rfl⟩ := hg
    exact Or.inl (Or.inl (Or.inr (List.mem_map.2 ⟨r, hr, rfl⟩)))
  · rw [List.mem_map] at hg
    obtain ⟨c, hc, rfl⟩ := hg
    exact Or.inl (Or.inr (List.mem_map.2 ⟨c, hc, rfl⟩))
  · rw [List.mem_flatMap] at hg
    obtain ⟨br, hbr, hg⟩ := hg
    rw [List.mem_map] at hg
    obtain ⟨bc, hbc, rfl⟩ := hg
    refine Or.inr (List.mem_flatMap.2 ⟨br, hbr, List.mem_map.2 ⟨bc, hbc, rfl⟩⟩)

/-- Facts about the 27 groups: each has 9 pairwise-distinct member cells,
all of them legal row-major indices. -/
theorem groupCells_facts :
    ∀ g ∈ groupCells, g.length = 9 ∧ g.Nodup ∧ ∀ i ∈ g, i < 81 := by decide

/-- Semantics of the blocking constraint: an assignment satisfies it iff
it differs from the extracted solution at some cell. -/
theorem holds_block_iff (a : Nat → Int) (sol : List Int) :
    Constr.holds a (blockConstraint sol) = true ↔
      ∃ i, i < 81 ∧ a i ≠ sol.getD i 0 := by
  unfold blockConstraint Constr.holds
  rw [List.any_eq_true]
  constructor
  · rintro ⟨p, hp, hne⟩
    rw [List.mem_map] at hp
    obtain ⟨i, hi, rfl⟩ := hp
    exact ⟨i, by simpa [BOARD_SIZE] using List.mem_range.1 hi, by simpa using hne⟩
  · rintro ⟨i, hi, hne⟩
    exact ⟨(i, sol.getD i 0),
      List.mem_map.2 ⟨i, List.mem_range.2 (by simpa [BOARD_SIZE] using hi), rfl⟩,
      by simpa using hne⟩

/-- A constraint list matching `blockedPattern` is unsatisfiable. -/
theorem blockedPattern_unsat {cs : List Constr}
    (h : blockedPattern cs = true) : ∀ a, satisfies a cs ≠ true := by
  intro a hsat
  unfold blockedPattern at h
  rw [List.any_eq_true] at h
  obtain ⟨c, hc, hcp⟩ := h
  cases c with
  | orNe lits =>
    rw [List.all_eq_true] at hcp
    have h1 : Constr.holds a (Constr.orNe lits) = true := satisfies_mem hsat hc
    unfold Constr.holds at h1
    rw [List.any_eq_true] at h1
    obtain ⟨p, hp, hne⟩ := h1
    have hmem : Constr.eq p.1 p.2 ∈ cs := of_decide_eq_true (hcp p hp)
    have h2 : Constr.holds a (Constr.eq p.1 p.2) = true := satisfies_mem hsat hmem
    unfold Constr.holds at h2
    exact (of_decide_eq_true hne) (of_decide_eq_true h2)
  | ge cell v => simp at hcp
  | le cell v => simp at hcp
  | eq cell v => simp at hcp
  | distinct cells => simp at hcp

theorem probeOracle_satSound (σ : Nat → Int) : SatSound (probeOracle σ) := by
  intro cs h
  unfold probeOracle at h
  simp only at h
  split at h
  · cases h
  · split at h
    · rename_i hσ
      exact hσ
    · cases h

theorem probeOracle_unsatSound (σ : Nat → Int) : UnsatSound (probeOracle σ) := by
  intro cs h
  unfold probeOracle at h
  simp only at h
  split at h
  · rename_i hb
    exact blockedPattern_unsat hb
  · split at h
    · cases h
    · cases h

/-- Pigeonhole for groups: a duplicate-free list of nine integers drawn
from [1, 9] contains each value of [1, 9] exactly once. -/
theorem count_eq_one_of_nine {l : List Int} (hnd : l.Nodup) (hlen : l.length = 9)
    (hmem : ∀ x ∈ l, 1 ≤ x ∧ x ≤ 9) {v : Int} (h1 : 1 ≤ v) (h9 : v ≤ 9) :
    l.count v = 1 := by
  have hnine : ∀ x : Int, 1 ≤ x → x ≤ 9 → x ∈ nineList := by
    intro x hx1 hx9
    unfold nineList
    simp only [List.mem_cons, List.not_mem_nil, or_false]
    omega
  have hsub : l ⊆ nineList := fun x hx => hnine x (hmem x hx).1 (hmem x hx).2
  have hperm : l.Perm nineList :=
    (hnd.subperm hsub).perm_of_length_le (by simp [nineList, hlen])
  rw [hperm.count_eq]
  exact List.count_eq_one_of_mem (by decide) (hnine v h1 h9)

/-- Inversion of a successful `solveSudoku` run: the first check answered
sat, the solution was extracted from the model of the encoded system, and
the count is 2 or 1 according to the second check on the blocked system. -/
theorem solveSudoku_ok {O : Oracle} {b : List Int} {r : SolveResult}
    (h : solveSudoku O b = Except.ok r) :
    O.check (encode b) = Z3Result.sat ∧
    extract (O.model (encode b)) = some r.solution ∧
    r.solutionCount =
      (if O.check (encode b ++ [blockConstraint r.solution]) = Z3Result.sat
        then 2 else 1) := by
  by_cases hc : O.check (encode b) = Z3Result.sat
  · refine ⟨hc, ?_⟩
    simp only [solveSudoku] at h
    rw [if_neg (fun hn => hn hc)] at h
    cases hext : extract (O.model (encode b)) with
    | none => rw [hext] at h; cases h
    | some sol =>
      rw [hext] at h
      injection h with h2
      subst h2
      exact ⟨rfl, rfl⟩
  · simp only [solveSudoku] at h
    rw [if_pos hc] at h
    cases h

/-- When extraction succeeded, the induced assignment of the oracle agrees
with the extracted solution on every cell. -/
theorem assign_eq_solution {O : Oracle} {cs : List Constr} {sol : List Int}
    (hext : extract (O.model cs) = some sol) {i : Nat} (hi : i < 81) :
    O.assign cs i = sol.getD i 0 := by
  have h := (extract_spec hext).2 i hi
  unfold Oracle.assign
  rw [h]
  rfl

/-- Claim C2: for every board on which solveSudoku succeeds (under a
backend whose sat answers come with a genuine model), the returned
solution satisfies all Sudoku rules: each of the 27 groups (9 rows, 9
columns, 9 boxes with box membership from (row/3, col/3)) contains each
value 1 through 9 exactly once. -/
theorem solveSudoku_solution_valid (O : Oracle) (b : List Int) (r : SolveResult)
    (hss : SatSound O) (hok : solveSudoku O b = Except.ok r) :
    validSolutionSpec r.solution := by
  obtain ⟨hc1, hext, _⟩ := solveSudoku_ok hok
  have hsat : satisfies (O.assign (encode b)) (encode b) = true := hss _ hc1
  intro g hg v h1 h9
  obtain ⟨hlen, _, hmem81⟩ := groupCells_facts g hg
  have hmap : (g.map fun i => r.solution.getD i 0) = g.map (O.assign (encode b)) :=
    List.map_congr_left fun i hi => (assign_eq_solution hext (hmem81 i hi)).symm
  rw [hmap]
  have hnd : (g.map (O.assign (encode b))).Nodup := by
    have h := satisfies_mem hsat (distinct_mem_encode b hg)
    unfold Constr.holds at h
    exact of_decide_eq_true h
  have hvals : ∀ x ∈ g.map (O.assign (encode b)), 1 ≤ x ∧ x ≤ 9 := by
    intro x hx
    rw [List.mem_map] at hx
    obtain ⟨i, hi, rfl⟩ := hx
    have hge := satisfies_mem hsat (ge_mem_encode b (hmem81 i hi))
    have hle := satisfies_mem hsat (le_mem_encode b (hmem81 i hi))
    unfold Constr.holds at hge hle
    exact ⟨of_decide_eq_true hge, of_decide_eq_true hle⟩
  exact count_eq_one_of_nine hnd (by simp [hlen]) hvals h1 h9

/-- Claim C2 witness: the blank board solved through the reference
oracle; the first row of the returned solution contains the value 1
exactly once. -/
theorem solveSudoku_solution_valid_witness :
    ((rowGroup 0).map fun i => fullBoard.getD i 0).count 1 = 1 :=
  solveSudoku_solution_valid (probeOracle sigmaStar) zeroBoard
    { solution := fullBoard, solutionCount := 1 }
    (probeOracle_satSound sigmaStar) (by decide)
    (rowGroup 0) (by decide) 1 (by decide) (by decide)

/-- Claim C3: for every board on which solveSudoku succeeds (under a
backend whose sat answers come with a genuine model) and every position
whose input value is non-zero, the returned solution at that position
equals the input value. -/
theorem solveSudoku_preserves_clues (O : Oracle) (b : List Int) (r : SolveResult)
    (hss : SatSound O) (hok : solveSudoku O b = Except.ok r)
    (p : Nat) (hp : p < 81) (hnz : b.getD p 0 ≠ 0) :
    r.solution.getD p 0 = b.getD p 0 := by
  obtain ⟨hc1, hext, _⟩ := solveSudoku_ok hok
  have hsat : satisfies (O.assign (encode b)) (encode b) = true := hss _ hc1
  have heq := satisfies_mem hsat (eq_mem_encode hp hnz)
  unfold Constr.holds at heq
  rw [← assign_eq_solution hext hp]
  exact of_decide_eq_true heq

/-- Claim C3 witness: a board whose single clue is cell 0 = 1, solved
through the reference oracle; the solution keeps the clue. -/
theorem solveSudoku_preserves_clues_witness :
    fullBoard.getD 0 0 = oneClueBoard.getD 0 0 :=
  solveSudoku_preserves_clues (probeOracle sigmaStar) oneClueBoard
    { solution := fullBoard, solutionCount := 1 }
    (probeOracle_satSound sigmaStar) (by decide) 0 (by decide) (by decide)

/-- Claim C7: for every board on which solveSudoku succeeds (under a
backend whose sat answers come with a genuine model), the returned
solution is a sequence of exactly 81 integers, each in [1, 9], read from
the model of the 81 cell variables in row-major order
(index = row * 9 + col). -/
theorem solveSudoku_solution_shape (O : Oracle) (b : List Int) (r : SolveResult)
    (hss : SatSound O) (hok : solveSudoku O b = Except.ok r) :
    r.solution.length = 81 ∧
    (∀ i, i < 81 → 1 ≤ r.solution.getD i 0 ∧ r.solution.getD i 0 ≤ 9) ∧
    (∀ row col, row < 9 → col < 9 →
      O.model (encode b) (cellIdx row col) =
        some (r.solution.getD (cellIdx row col) 0)) := by
  obtain ⟨hc1, hext, _⟩ := solveSudoku_ok hok
  have hsat : satisfies (O.assign (encode b)) (encode b) = true := hss _ hc1
  obtain ⟨hlen, hmod⟩ := extract_spec hext
  refine ⟨hlen, fun i hi => ?_, fun row col hr hc => hmod _ (cellIdx_lt hr hc)⟩
  have hge := satisfies_mem hsat (ge_mem_encode b hi)
  have hle := satisfies_mem hsat (le_mem_encode b hi)
  unfold Constr.holds at hge hle
  rw [← assign_eq_solution hext hi]
  exact ⟨of_decide_eq_true hge, of_decide_eq_true hle⟩

/-- Claim C7 witness: the blank board solved through the reference
oracle; the solution has 81 entries, its first entry lies in [1, 9], and
cell (0, 0) is read back from the model. -/
theorem solveSudoku_solution_shape_witness :
    fullBoard.length = 81 ∧
    (1 ≤ fullBoard.getD 0 0 ∧ fullBoard.getD 0 0 ≤ 9) ∧
    (probeOracle sigmaStar).model (encode zeroBoard) (cellIdx 0 0) =
      some (fullBoard.getD (cellIdx 0 0) 0) :=
  let h := solveSudoku_solution_shape (probeOracle sigmaStar) zeroBoard
    { solution := fullBoard, solutionCount := 1 }
    (probeOracle_satSound sigmaStar) (by decide)
  ⟨h.1, h.2.1 0 (by decide), h.2.2 0 0 (by decide) (by decide)⟩

/-- Claim C1: under a backend that is sound in both directions and does
not answer unknown at the uniqueness probe, the uniqueness flag is
correct: `solutionCount = 1` means no satisfying assignment differs from
the returned solution in any cell, `solutionCount = 2` means some
satisfying assignment does; and the single added blocking constraint
holds for exactly the assignments that differ from the returned solution
somewhere. -/
theorem solveSudoku_uniqueness (O : Oracle) (b : List Int) (r : SolveResult)
    (hss : SatSound O) (hus : UnsatSound O)
    (hok : solveSudoku O b = Except.ok r)
    (hnd : O.check (encode b ++ [blockConstraint r.solution]) ≠ Z3Result.unknown) :
    (r.solutionCount = 1 → ∀ a, satisfies a (encode b) = true →
      ∀ i, i < 81 → a i = r.solution.getD i 0) ∧
    (r.solutionCount = 2 → ∃ a, satisfies a (encode b) = true ∧
      ∃ i, i < 81 ∧ a i ≠ r.solution.getD i 0) ∧
    (∀ a, Constr.holds a (blockConstraint r.solution) = true ↔
      ∃ i, i < 81 ∧ a i ≠ r.solution.getD i 0) := by
  obtain ⟨hc1, hext, hcnt⟩ := solveSudoku_ok hok
  refine ⟨?_, ?_, fun a => holds_block_iff a r.solution⟩
  · intro h1 a ha i hi
    by_contra hne
    cases hz : O.check (encode b ++ [blockConstraint r.solution]) with
    | sat =>
      rw [hcnt, if_pos hz] at h1
      omega
    | unknown => exact hnd hz
    | unsat =>
      apply hus _ hz a
      rw [satisfies_append, ha, satisfies_single, Bool.true_and]
      exact (holds_block_iff a r.solution).2 ⟨i, hi, hne⟩
  · intro h2
    have hz : O.check (encode b ++ [blockConstraint r.solution]) = Z3Result.sat := by
      by_contra hzz
      rw [hcnt, if_neg hzz] at h2
      omega
    have hsat2 := hss _ hz
    rw [satisfies_append, Bool.and_eq_true] at hsat2
    obtain ⟨henc, hblk⟩ := hsat2
    rw [satisfies_single] at hblk
    obtain ⟨i, hi, hne⟩ := (holds_block_iff _ _).1 hblk
    exact ⟨O.assign (encode b ++ [blockConstraint r.solution]), henc, i, hi, hne⟩

/-- Claim C1 witness: the fully-solved reference board through the
reference oracle reports `solutionCount = 1`, and every satisfying
assignment agrees with the returned solution at cell 0. -/
theorem solveSudoku_uniqueness_witness : sigmaStar 0 = fullBoard.getD 0 0 :=
  (solveSudoku_uniqueness (probeOracle sigmaStar) fullBoard
      { solution := fullBoard, solutionCount := 1 }
      (probeOracle_satSound sigmaStar) (probeOracle_unsatSound sigmaStar)
      (by decide) (by decide)).1
    (by decide) sigmaStar (by decide) 0 (by decide)

/-- Claim C5: a board with two identical non-zero clues in the same
group is rejected as unsolvable by `solveSudoku` (under a backend whose
sat answers come with a genuine model), whatever the model
function does — so no solution extraction takes place. -/
theorem solveSudoku_conflicting_clues (O : Oracle) (b : List Int)
    (g : List Nat) (i j : Nat)
    (hg : g ∈ groupCells) (hi : i ∈ g) (hj : j ∈ g) (hij : i ≠ j)
    (hvv : b.getD i 0 = b.getD j 0) (hnz : b.getD i 0 ≠ 0)
    (hss : SatSound O) :
    ∀ m, solveSudoku { check := O.check, model := m } b =
      Except.error SolveError.unsolvable := by
  obtain ⟨_, _, hmem81⟩ := groupCells_facts g hg
  have hunsat : ∀ a, satisfies a (encode b) ≠ true := by
    intro a hsat
    have hai := satisfies_mem hsat (eq_mem_encode (hmem81 i hi) hnz)
    have haj := satisfies_mem hsat (eq_mem_encode (hmem81 j hj) (hvv ▸ hnz))
    unfold Constr.holds at hai haj
    have hd := satisfies_mem hsat (distinct_mem_encode b hg)
    unfold Constr.holds at hd
    have hinj := List.inj_on_of_nodup_map (of_decide_eq_true hd)
    exact hij (hinj hi hj
      (by rw [of_decide_eq_true hai, of_decide_eq_true haj, hvv]))
  have hc : O.check (encode b) ≠ Z3Result.sat := fun hs => hunsat _ (hss _ hs)
  intro m
  simp only [solveSudoku]
  rw [if_pos hc]

/-- Claim C5 witness: the board whose first row starts `[5, 5, ...]` is
reported unsolvable. -/
theorem solveSudoku_conflicting_clues_witness :
    solveSudoku (probeOracle sigmaStar) board5 =
      Except.error SolveError.unsolvable :=
  solveSudoku_conflicting_clues (probeOracle sigmaStar) board5 (rowGroup 0) 0 1
    (by decide) (by decide) (by decide) (by decide) (by decide) (by decide)
    (probeOracle_satSound sigmaStar) ((probeOracle sigmaStar).model)

/-- Claim C8: a fully-filled, internally-consistent board (all 81 entries
non-zero and themselves satisfying the constraint system) is solved, the
returned solution equals the input, the flag reports unique
(`solutionCount = 1`), and the second decision round answers
unsatisfiable — given a backend sound in both directions that answers
decisively at both rounds. -/
theorem solveSudoku_full_board (O : Oracle) (b : List Int)
    (hss : SatSound O) (hus : UnsatSound O)
    (hb : b.length = 81) (hfull : ∀ i, i < 81 → b.getD i 0 ≠ 0)
    (hcons : satisfies (fun i => b.getD i 0) (encode b) = true)
    (hnd1 : O.check (encode b) ≠ Z3Result.unknown)
    (hnd2 : O.check (encode b ++ [blockConstraint b]) ≠ Z3Result.unknown) :
    solveSudoku O b = Except.ok { solution := b, solutionCount := 1 } ∧
    O.check (encode b ++ [blockConstraint b]) = Z3Result.unsat := by
  have hc1 : O.check (encode b) = Z3Result.sat := by
    cases hz : O.check (encode b) with
    | sat => rfl
    | unsat => exact absurd hcons (hus _ hz _)
    | unknown => exact absurd hz hnd1
  have hsat := hss _ hc1
  have hpin : ∀ i, i < 81 → O.assign (encode b) i = b.getD i 0 := by
    intro i hi
    have h := satisfies_mem hsat (eq_mem_encode hi (hfull i hi))
    unfold Constr.holds at h
    exact of_decide_eq_true h
  have hmod : ∀ i ∈ List.range 81, O.model (encode b) i = some (b.getD i 0) := by
    intro i hi
    have hi' := List.mem_range.1 hi
    have hp := hpin i hi'
    unfold Oracle.assign at hp
    cases hm : O.model (encode b) i with
    | none =>
      rw [hm] at hp
      simp only [Option.getD_none] at hp
      exact absurd hp.symm (hfull i hi')
    | some v =>
      rw [hm] at hp
      simp only [Option.getD_some] at hp
      rw [hp]
  have hext : extract (O.model (encode b)) = some b := by
    unfold extract BOARD_SIZE
    rw [extractList_all_some hmod, map_range_getD hb]
  have hunsat2 : ∀ a, satisfies a (encode b ++ [blockConstraint b]) ≠ true := by
    intro a hsa
    rw [satisfies_append, Bool.and_eq_true] at hsa
    obtain ⟨henc, hblk⟩ := hsa
    rw [satisfies_single] at hblk
    obtain ⟨i, hi, hne⟩ := (holds_block_iff _ _).1 hblk
    have h := satisfies_mem henc (eq_mem_encode hi (hfull i hi))
    unfold Constr.holds at h
    exact hne (of_decide_eq_true h)
  have hc2 : O.check (encode b ++ [blockConstraint b]) = Z3Result.unsat := by
    cases hz : O.check (encode b ++ [blockConstraint b]) with
    | sat => exact absurd (hss _ hz) (hunsat2 _)
    | unsat => rfl
    | unknown => exact absurd hz hnd2
  refine ⟨?_, hc2⟩
  simp only [solveSudoku]
  rw [if_neg (fun hn => hn hc1), hext]
  show (Except.ok
      { solution := b,
        solutionCount :=
          if O.check (encode b ++ [blockConstraint b]) = Z3Result.sat
          then 2 else 1 } : Except SolveError SolveResult) = _
  rw [if_neg (by simp [hc2])]

/-- Claim C8 witness: the fully-solved reference board through the
reference oracle. -/
theorem solveSudoku_full_board_witness :
    solveSudoku (probeOracle sigmaStar) fullBoard =
      Except.ok { solution := fullBoard, solutionCount := 1 } ∧
    (probeOracle sigmaStar).check (encode fullBoard ++ [blockConstraint fullBoard]) =
      Z3Result.unsat :=
  solveSudoku_full_board (probeOracle sigmaStar) fullBoard
    (probeOracle_satSound sigmaStar) (probeOracle_unsatSound sigmaStar)
    (by decide) (by decide) (by decide) (by decide) (by decide)

/-- Claim C4, counterexample: the code conflates the unknown answer of
the backend with unsatisfiability.  A backend answering unknown at the first
round makes `solveSudoku` throw `SudokuUnsolvableError` (reported as
unsolvable, not as a distinct indeterminate failure), and a backend
answering unknown at the uniqueness probe makes it report
`solutionCount = 1`, i.e. "unique". -/
theorem solveSudoku_unknown_counterexample :
    unknownOracle.check (encode zeroBoard) = Z3Result.unknown ∧
    solveSudoku unknownOracle zeroBoard = Except.error SolveError.unsolvable ∧
    (probeOracle sigmaStar).check
        (encode zeroBoard ++ [blockConstraint fullBoard]) = Z3Result.unknown ∧
    solveSudoku (probeOracle sigmaStar) zeroBoard =
      Except.ok { solution := fullBoard, solutionCount := 1 } :=
  ⟨rfl, by decide, by decide, by decide⟩

/-- Claim C4 as amended: there is no distinct indeterminate failure kind;
`solveSudoku` reports an unknown first-round answer as unsolvable (the
`result.toString() !== "sat"` test), and an unknown uniqueness-probe
answer as `solutionCount = 1` ("unique"). -/
theorem solveSudoku_unknown_conflated (O : Oracle) (b : List Int) :
    (O.check (encode b) = Z3Result.unknown →
      solveSudoku O b = Except.error SolveError.unsolvable) ∧
    (∀ sol, O.check (encode b) = Z3Result.sat →
      extract (O.model (encode b)) = some sol →
      O.check (encode b ++ [blockConstraint sol]) = Z3Result.unknown →
      solveSudoku O b = Except.ok { solution := sol, solutionCount := 1 }) := by
  constructor
  · intro h
    simp only [solveSudoku]
    rw [if_pos (by simp [h])]
  · intro sol hc hext hu
    simp only [solveSudoku]
    rw [if_neg (fun hn => hn hc), hext]
    show (Except.ok
        { solution := sol,
          solutionCount :=
            if O.check (encode b ++ [blockConstraint sol]) = Z3Result.sat
            then 2 else 1 } : Except SolveError SolveResult) = _
    rw [if_neg (by simp [hu])]

/-- Claim C4 witness (for the amended statement): both conflations at
concrete inputs. -/
theorem solveSudoku_unknown_conflated_witness :
    solveSudoku unknownOracle zeroBoard = Except.error SolveError.unsolvable ∧
    solveSudoku (probeOracle sigmaStar) zeroBoard =
      Except.ok { solution := fullBoard, solutionCount := 1 } :=
  ⟨(solveSudoku_unknown_conflated unknownOracle zeroBoard).1 rfl,
    (solveSudoku_unknown_conflated (probeOracle sigmaStar) zeroBoard).2 fullBoard
      (by decide) (by decide) (by decide)⟩

theorem parseEntries_none {entries : List JsEntry}
    (h : ∃ e ∈ entries, checkEntry e = none) : parseEntries entries = none := by
  induction entries with
  | nil => simp at h
  | cons e rest ih =>
    obtain ⟨e', he', hchk⟩ := h
    simp only [parseEntries]
    rw [List.mem_cons] at he'
    rcases he' with rfl | hmem
    · rw [hchk]
    · cases hc : checkEntry e with
      | none => rfl
      | some v => rw [ih ⟨e', hmem, hchk⟩]

/-- Claim C6: a request whose board has the wrong length or contains a
non-integer or out-of-range entry is answered with HTTP 400, and the
response does not depend on the backend at all — the decision procedure
is never invoked. -/
theorem handleSolveRequest_malformed (entries : List JsEntry)
    (h : entries.length ≠ BOARD_SIZE ∨ ∃ e ∈ entries, checkEntry e = none) :
    ∀ O, handleSolveRequest O entries = (400, none) := by
  intro O
  simp only [handleSolveRequest]
  rcases h with h | h
  · rw [if_pos h]
  · by_cases hl : entries.length ≠ BOARD_SIZE
    · rw [if_pos hl]
    · rw [if_neg hl, parseEntries_none h]

/-- Claim C6 witness: a length-80 board and a board containing the value
10 are both rejected with 400 under an arbitrary backend. -/
theorem handleSolveRequest_malformed_witness :
    handleSolveRequest unknownOracle entries80 = (400, none) ∧
    handleSolveRequest unknownOracle entries10 = (400, none) :=
  ⟨handleSolveRequest_malformed entries80 (Or.inl (by decide)) unknownOracle,
    handleSolveRequest_malformed entries10
      (Or.inr ⟨JsEntry.int 10, by decide, by decide⟩) unknownOracle⟩

/-- Claim C9: the encoding is a pure function of the board — no
randomness, no state: encoding the same board twice yields the same
constraint system, hence the same decision-procedure outcome and the same
satisfying assignments. -/
theorem encode_deterministic (b1 b2 : List Int) (h : b1 = b2) :
    encode b1 = encode b2 ∧
    (∀ O : Oracle, O.check (encode b1) = O.check (encode b2)) ∧
    (∀ a, satisfies a (encode b1) = satisfies a (encode b2)) := by
  subst h
  exact ⟨rfl, fun _ => rfl, fun _ => rfl⟩

/-- Claim C9 witness: two encoding runs on the blank board coincide. -/
theorem encode_deterministic_witness : encode zeroBoard = encode zeroBoard :=
  (encode_deterministic zeroBoard zeroBoard rfl).1

/-- Claim C10: in the process-isolated variant, every failure of the
solver subprocess — whatever error `solveSudokuQ` threw, a genuine
unsolvable board or an internal model-extraction parse failure — is
rethrown by `solveSudokuInProcess` as `SudokuUnsolvableError`, so the
HTTP client receives status 422. -/
theorem inProcess_failure_is_422 (O : Oracle) (b : List Int) (e : String)
    (h : solveSudokuQ O b = Except.error e) :
    ipResponseStatus (solveSudokuInProcessOutput (solverMain O b)) = 422 := by
  unfold solverMain
  rw [h]
  rfl

/-- Claim C10 witness: a backend whose model values all fail to parse
produces an internal error in the subprocess, which the in-process
wrapper surfaces as 422. -/
theorem inProcess_failure_is_422_witness :
    solveSudokuQ noneModelOracle zeroBoard =
      Except.error "Failed to parse solver value" ∧
    ipResponseStatus (solveSudokuInProcessOutput
      (solverMain noneModelOracle zeroBoard)) = 422 :=
  ⟨by decide,
    inProcess_failure_is_422 noneModelOracle zeroBoard
      "Failed to parse solver value" (by decide)⟩

end Sudoku
